import Mathlib

/-! The pingpong example pipeline (`examples/pingpong/pingpong.go`).

A shallow embedding of the element-wise functions `multiFn` and `subsetFn`, of the
four-node graph built by `stitch`, and of the two consistency checks wired by `main`.

Modelling conventions.

* A Go `string` is a Lean `String`; Go's builtin `len` on a string is its number of
  bytes (`String.utf8ByteSize`).
* The emitter callbacks `small, big func(string)` are modelled by the log of the calls
  made to them, in order.
* A Go `error` result is an `Option String`: `none` is `nil`, `some msg` is an error
  carrying the message `msg`.
* The side-input iterators `func(*string) bool` of `subsetFn` are modelled by the list
  of the elements they yield, in order.
* Go's `int` is taken to be 64 bits wide.  The accumulator `size` of `multiFn` is an `Int`
  that wraps around after every addition (`wrap64`), and `/` is truncating division
  (`Int.tdiv`).  The counter `count` is incremented once per sample element, so it never
  exceeds `len(sample)`, itself an `int`: it cannot wrap and is kept as a natural number.
  `multiFn64` wraps `count` as well and agrees with `multiFn` on every sample of fewer than
  `2 ^ 63` elements.
-/

namespace PingPong

/-! ## Data model -/

/-- Go's builtin `len` applied to a string: the number of bytes. -/
def goLen (s : String) : Nat := s.utf8ByteSize

/-- One call to an emitter of `multiFn`: `small(w)` or `big(w)`. -/
inductive Emit where
  | small (w : String)
  | big (w : String)
  deriving DecidableEq, Repr

/-- What one invocation of `multiFn` did: the emitter calls, in order, and the returned error. -/
structure FnResult where
  calls : List Emit
  err : Option String
  deriving DecidableEq, Repr

/-! ## `multiFn` -/

/-- The two-complement wrap-around of a Go `int` on a 64-bit platform. -/
def wrap64 (x : Int) : Int := (x + 2 ^ 63) % 2 ^ 64 - 2 ^ 63

/-- The loop `for _, w := range sample { count++; size += len(w) }`, started from
`count = 0`, `size = 0`.  The result is the pair `(count, size)`; `size` wraps around as a
64-bit `int` does. -/
def sampleLoop (sample : List String) : Nat × Int :=
  sample.foldl (fun acc w => (acc.1 + 1, wrap64 (acc.2 + (goLen w : Int)))) (0, 0)

/-- The function `multiFn(word, sample, small, big)`. -/
def multiFn (word : String) (sample : List String) : FnResult :=
  let cs := sampleLoop sample
  let count := cs.1
  let size := cs.2
  if count = 0 then
    { calls := [], err := some "Empty sample" }
  else
    let avg := wrap64 (Int.tdiv size (count : Int))
    if (goLen word : Int) < avg then
      { calls := [Emit.small word], err := none }
    else
      { calls := [Emit.big word], err := none }

/-- The loop of `multiFn` with `count` kept as a wrapping 64-bit integer too. -/
def sampleLoop64 (sample : List String) : Int × Int :=
  sample.foldl (fun acc w => (wrap64 (acc.1 + 1), wrap64 (acc.2 + (goLen w : Int)))) (0, 0)

/-- The function `multiFn` with both `count` and `size` as wrapping 64-bit integers. -/
def multiFn64 (word : String) (sample : List String) : FnResult :=
  let cs := sampleLoop64 sample
  let count := cs.1
  let size := cs.2
  if count = 0 then
    { calls := [], err := some "Empty sample" }
  else
    let avg := wrap64 (Int.tdiv size count)
    if (goLen word : Int) < avg then
      { calls := [Emit.small word], err := none }
    else
      { calls := [Emit.big word], err := none }

/-! ## `subsetFn` -/

/-- The Go map `map[string]bool`; a missing key reads as the zero value `false`. -/
abbrev GoMap := String → Bool

/-- The result of `make(map[string]bool)`. -/
def GoMap.empty : GoMap := fun _ => false

/-- The assignment `m[k] = v`. -/
def GoMap.set (m : GoMap) (k : String) (v : Bool) : GoMap :=
  fun x => if x = k then v else m x

/-- The loop `for b(&elm) { larger[elm] = true }` over the elements the iterator `b` yields. -/
def fillLarger (b : List String) (larger : GoMap) : GoMap :=
  b.foldl (fun m elm => m.set elm true) larger

/-- The loop `for a(&elm) { if !larger[elm] { return Errorf("Extra element: %v", elm) } }`
followed by `return nil`. -/
def checkLoop (larger : GoMap) : List String → Option String
  | [] => none
  | elm :: rest =>
    if !larger elm then some ("Extra element: " ++ elm) else checkLoop larger rest

/-- The function `subsetFn(_, a, b)`; the impulse argument is ignored by the code. -/
def subsetFn (a b : List String) : Option String :=
  let larger := fillLarger b GoMap.empty
  checkLoop larger a

/-! ## Nodes and the `stitch` graph -/

/-- The words passed to the `small` emitter, in call order. -/
def smallOf : List Emit → List String
  | [] => []
  | Emit.small w :: cs => w :: smallOf cs
  | Emit.big _ :: cs => smallOf cs

/-- The words passed to the `big` emitter, in call order. -/
def bigOf : List Emit → List String
  | [] => []
  | Emit.small _ :: cs => bigOf cs
  | Emit.big w :: cs => w :: bigOf cs

/-- The two output collections of a two-output node and the first error raised in it. -/
structure NodeResult where
  small : List String
  big : List String
  err : Option String
  deriving DecidableEq, Repr

/-- Modelled from the spec: `beam.ParDo2` with one slice side input lives in the Beam SDK,
outside this source file.  Following the executor of the specification, the node function
is invoked once per main-input element, in order, each time with the whole side input;
what the two emitters receive is collected per output; an error ends the node and the
remaining elements are not processed. -/
def parDo2 (fn : String → List String → FnResult) :
    List String → List String → NodeResult
  | [], _ => { small := [], big := [], err := none }
  | w :: ws, sample =>
    let r := fn w sample
    match r.err with
    | some e => { small := smallOf r.calls, big := bigOf r.calls, err := some e }
    | none =>
      let rest := parDo2 fn ws sample
      { small := smallOf r.calls ++ rest.small, big := bigOf r.calls ++ rest.big,
        err := rest.err }

/-- The four nodes that `stitch` builds, in construction order. -/
structure StitchNodes where
  nodeA : NodeResult
  nodeB : NodeResult
  nodeC : NodeResult
  nodeD : NodeResult
  deriving DecidableEq, Repr

/-- The body of `stitch`: four `ParDo2` nodes over `multiFn`.
* `small1, big1 := ParDo2(multiFn, words, SideInput words)`
* `small2, big2 := ParDo2(multiFn, words, SideInput big1)`
* `_, big3 := ParDo2(multiFn, big2, SideInput small1)`
* `small4, _ := ParDo2(multiFn, small2, SideInput big3)` -/
def stitchNodes (words : List String) : StitchNodes :=
  let a := parDo2 multiFn words words
  let b := parDo2 multiFn words a.big
  let c := parDo2 multiFn b.big a.small
  let d := parDo2 multiFn b.small c.big
  { nodeA := a, nodeB := b, nodeC := c, nodeD := d }

/-- The function `stitch`: it returns `(small4, big3)`. -/
def stitch (words : List String) : List String × List String :=
  let g := stitchNodes words
  (g.nodeD.small, g.nodeC.big)

/-- The baseline node of `main`: `small, big := ParDo2(multiFn, words, SideInput words)`. -/
def baseline (words : List String) : NodeResult :=
  parDo2 multiFn words words

/-- The two checks of `main`: `subset(p, small, small2)` and `subset(p, big2, big)`, where
`small, big` is the baseline and `small2, big2` is the result of `stitch`. -/
def mainChecks (words : List String) : Option String × Option String :=
  let base := baseline words
  let st := stitch words
  (subsetFn base.small st.1, subsetFn st.2 base.big)

/-! ## Specification-side vocabulary -/

/-- Sum of the lengths of the strings of a list. -/
def totalLen (l : List String) : Nat := (l.map goLen).sum

/-- Truncated average length of a list of strings. -/
def avgLen (l : List String) : Nat := totalLen l / l.length

/-- The value of `size` after the loop of `multiFn`, when it is not negative, and zero
otherwise: the summed length of the sample after 64-bit wrap-around. -/
def wrapTotal (l : List String) : Nat := (wrap64 (totalLen l : Int)).toNat

/-- The length below which `multiFn` sends a word to small under the sample `l`: the
wrapped sum divided by the number of elements (zero when the wrapped sum is negative). -/
def threshold (l : List String) : Nat := wrapTotal l / l.length

/-- Elements of `main` strictly shorter than the threshold of `sample`. -/
def shorter (sample main : List String) : List String :=
  main.filter (fun w => decide (goLen w < threshold sample))

/-- Elements of `main` at least as long as the threshold of `sample`. -/
def longer (sample main : List String) : List String :=
  main.filter (fun w => decide (threshold sample ≤ goLen w))

/-- A string of `2 ^ 32` bytes. -/
def wrapWord : String := String.mk (List.replicate (2 ^ 32) 'a')

/-- A sample of `2 ^ 31` references to `wrapWord`: its summed length is `2 ^ 63`, one more
than the largest 64-bit `int`. -/
def wrapSample : List String := List.replicate (2 ^ 31) wrapWord

/-- Number of characters (Unicode code points) of a string. -/
def charLen (s : String) : Nat := s.length

/-- Whether every character of the string is below 128, that is, takes one byte. -/
def asciiOnly (s : String) : Bool := s.data.all (fun c => decide (c.val.toNat < 128))

/-! ## The graph that `stitch` builds -/

/-- The two outputs of a `ParDo2` node. -/
inductive Slot where
  | small
  | big
  deriving DecidableEq, Repr

/-- A reference to a collection: the collection handed to the pipeline from outside (the
extracted words), or one output of the node with the given ordinal. -/
inductive PCol where
  | source
  | out (node : Nat) (slot : Slot)
  deriving DecidableEq, Repr

/-- A `ParDo2` node over `multiFn` as recorded in the pipeline: the composite scope it was
added under, its main input and its side input. -/
structure GraphNode where
  scope : String
  mainInput : PCol
  sideInput : PCol
  deriving DecidableEq, Repr

/-- Modelled from the spec: `p.Composite(name)` lives in the Beam SDK, outside this source
file.  A composite is a named grouping of nodes without execution semantics; it is
represented by its label. -/
def composite (name : String) : String := name

/-- Modelled from the spec: the graph-construction side of `beam.ParDo2` lives in the Beam
SDK, outside this source file.  Following the data model of the specification, the new node
records its scope and its main-input and side-input references, takes the next ordinal
position, and its two output collections are returned. -/
def addParDo2 (p : List GraphNode) (scope : String) (main side : PCol) :
    List GraphNode × PCol × PCol :=
  (p ++ [{ scope := scope, mainInput := main, sideInput := side }],
    PCol.out p.length Slot.small, PCol.out p.length Slot.big)

/-- The function `stitch` as a graph builder: the pipeline after the four `ParDo2` calls,
and the two returned collections `(small4, big3)`.  Both scopes are the composite "ping",
since `pong := ping`. -/
def stitchGraph (p : List GraphNode) (words : PCol) : List GraphNode × PCol × PCol :=
  let ping := composite "ping"
  let pong := ping
  let r1 := addParDo2 p ping words words
  let small1 := r1.2.1
  let big1 := r1.2.2
  let r2 := addParDo2 r1.1 pong words big1
  let small2 := r2.2.1
  let big2 := r2.2.2
  let r3 := addParDo2 r2.1 ping big2 small1
  let big3 := r3.2.2
  let r4 := addParDo2 r3.1 pong small2 big3
  let small4 := r4.2.1
  (r4.1, small4, big3)

/-- The node, if any, that produces a collection. -/
def producer : PCol → Option Nat
  | PCol.source => none
  | PCol.out i _ => some i

/-- Direct dependency: node `i` of the graph reads, as main input or as side input, an
output of node `j`. -/
def dependsOn (g : List GraphNode) (i j : Nat) : Bool :=
  match g[i]? with
  | none => false
  | some n => producer n.mainInput == some j || producer n.sideInput == some j

/-- The contents of a collection, given the contents of `words` and the results of the
nodes already run. -/
def resolve (words : List String) (done : List NodeResult) : PCol → List String
  | PCol.source => words
  | PCol.out i Slot.small =>
    match done[i]? with
    | some r => r.small
    | none => []
  | PCol.out i Slot.big =>
    match done[i]? with
    | some r => r.big
    | none => []

/-- Modelled from the spec: the executor lives in the Beam runners, outside this source
file.  Following the specification, the nodes are run in their order in the graph, each on
the contents of its main input with the contents of its side input as the sample. -/
def runGraph (g : List GraphNode) (words : List String) : List NodeResult :=
  g.foldl (fun done n =>
    done ++ [parDo2 multiFn (resolve words done n.mainInput) (resolve words done n.sideInput)])
    []

/-! ## Auxiliary lemmas: 64-bit wrap-around and `multiFn` -/

theorem wrap64_wrap64_add (x y : Int) : wrap64 (wrap64 x + y) = wrap64 (x + y) := by
  unfold wrap64
  omega

theorem wrap64_range (x : Int) : -(2 ^ 63) ≤ wrap64 x ∧ wrap64 x < 2 ^ 63 := by
  unfold wrap64
  omega

theorem wrap64_of_range (x : Int) (h0 : -(2 ^ 63) ≤ x) (h1 : x < 2 ^ 63) : wrap64 x = x := by
  unfold wrap64
  omega

theorem wrap64_zero : wrap64 0 = 0 := by
  unfold wrap64
  omega

theorem wrap64_natCast_of_le (q a : Nat) (hle : q ≤ a) (ha : (a : Int) < 2 ^ 63) :
    wrap64 (q : Int) = (q : Int) := by
  apply wrap64_of_range <;> omega

theorem wrap64_neg_natCast_of_le (q a : Nat) (hle : q ≤ a) (ha : -(2 ^ 63) ≤ -(a : Int)) :
    wrap64 (-(q : Int)) = -(q : Int) := by
  apply wrap64_of_range <;> omega

theorem totalLen_cons (w : String) (ws : List String) :
    totalLen (w :: ws) = goLen w + totalLen ws := by
  simp [totalLen]

theorem sampleLoop_from (l : List String) (c : Nat) (x : Int) :
    l.foldl (fun acc w => (acc.1 + 1, wrap64 (acc.2 + (goLen w : Int)))) (c, wrap64 x)
      = (c + l.length, wrap64 (x + (totalLen l : Int))) := by
  induction l generalizing c x with
  | nil => simp [totalLen]
  | cons w ws ih =>
    simp only [List.foldl_cons, wrap64_wrap64_add]
    rw [ih (c + 1) (x + (goLen w : Int))]
    simp only [totalLen_cons, List.length_cons]
    refine Prod.ext ?_ ?_
    · simp only
      omega
    · simp only
      congr 1
      push_cast
      omega

/-- After the loop, `count` is the number of sample elements and `size` is the summed
length of the sample, wrapped around. -/
theorem sampleLoop_eq (sample : List String) :
    sampleLoop sample = (sample.length, wrap64 (totalLen sample : Int)) := by
  unfold sampleLoop
  have h := sampleLoop_from sample 0 0
  rw [wrap64_zero] at h
  rw [h]
  simp

/-- Comparing a length with the truncated quotient of a 64-bit `size` by a positive count is
comparing it with the natural-number quotient of the non-negative part of `size`. -/
theorem tdiv_wrap_lt_iff (S : Int) (n g : Nat) (hS : -(2 ^ 63) ≤ S ∧ S < 2 ^ 63) :
    (g : Int) < wrap64 (Int.tdiv S (n : Int)) ↔ g < S.toNat / n := by
  match S, hS with
  | Int.ofNat a, hS =>
    have e : Int.tdiv (Int.ofNat a) (n : Int) = ((a / n : Nat) : Int) := rfl
    have ht : (Int.ofNat a).toNat = a := rfl
    rw [e, ht, wrap64_natCast_of_le (a / n) a (Nat.div_le_self a n) hS.2]
    exact Int.ofNat_lt
  | Int.negSucc m, hS =>
    have e : Int.tdiv (Int.negSucc m) (n : Int) = -(((m + 1) / n : Nat) : Int) := rfl
    have ht : (Int.negSucc m).toNat = 0 := rfl
    have hm : -(2 ^ 63) ≤ -((m + 1 : Nat) : Int) := hS.1
    rw [e, ht, wrap64_neg_natCast_of_le ((m + 1) / n) (m + 1) (Nat.div_le_self _ _) hm]
    rw [Nat.zero_div]
    constructor
    · intro h
      have : (0 : Int) ≤ (((m + 1) / n : Nat) : Int) := Int.ofNat_nonneg _
      omega
    · intro h
      omega

theorem multiFn_nil (word : String) :
    multiFn word [] = { calls := [], err := some "Empty sample" } := by
  simp [multiFn, sampleLoop]

theorem multiFn_of_ne_nil (word : String) (sample : List String) (h : sample ≠ []) :
    multiFn word sample =
      if goLen word < threshold sample then { calls := [Emit.small word], err := none }
      else { calls := [Emit.big word], err := none } := by
  have hlen : sample.length ≠ 0 := by
    intro h0
    exact h (List.length_eq_zero.mp h0)
  have hiff := tdiv_wrap_lt_iff (wrap64 (totalLen sample : Int)) sample.length (goLen word)
    (wrap64_range _)
  simp only [multiFn, sampleLoop_eq, if_neg hlen, threshold, wrapTotal]
  by_cases hlt : goLen word < (wrap64 (totalLen sample : Int)).toNat / sample.length
  · rw [if_pos hlt, if_pos (hiff.mpr hlt)]
  · rw [if_neg hlt, if_neg (fun hc => hlt (hiff.mp hc))]

theorem multiFn_small (word : String) (sample : List String) (h : sample ≠ [])
    (hlt : goLen word < threshold sample) :
    multiFn word sample = { calls := [Emit.small word], err := none } := by
  rw [multiFn_of_ne_nil word sample h, if_pos hlt]

theorem multiFn_big (word : String) (sample : List String) (h : sample ≠ [])
    (hge : ¬ goLen word < threshold sample) :
    multiFn word sample = { calls := [Emit.big word], err := none } := by
  rw [multiFn_of_ne_nil word sample h, if_neg hge]

theorem wrapTotal_le (l : List String) : wrapTotal l ≤ totalLen l := by
  unfold wrapTotal wrap64
  omega

theorem wrapTotal_of_lt (l : List String) (h : totalLen l < 2 ^ 63) :
    wrapTotal l = totalLen l := by
  unfold wrapTotal wrap64
  omega

/-- Without overflow the threshold is the truncated average length. -/
theorem threshold_of_lt (l : List String) (h : totalLen l < 2 ^ 63) :
    threshold l = avgLen l := by
  unfold threshold avgLen
  rw [wrapTotal_of_lt l h]

theorem threshold_le_avgLen (l : List String) : threshold l ≤ avgLen l :=
  Nat.div_le_div_right (wrapTotal_le l)

/-! ## `multiFn64` agrees with `multiFn` on samples of fewer than `2 ^ 63` elements -/

theorem sampleLoop64_from (l : List String) (c : Nat) (x : Int)
    (hc : c + l.length < 2 ^ 63) :
    l.foldl (fun acc w => (wrap64 (acc.1 + 1), wrap64 (acc.2 + (goLen w : Int))))
        ((c : Int), wrap64 x)
      = (((c + l.length : Nat) : Int), wrap64 (x + (totalLen l : Int))) := by
  induction l generalizing c x with
  | nil => simp [totalLen]
  | cons w ws ih =>
    simp only [List.length_cons] at hc
    have e1 : wrap64 ((c : Int) + 1) = ((c + 1 : Nat) : Int) := by
      rw [wrap64_of_range] <;> push_cast <;> omega
    simp only [List.foldl_cons, e1, wrap64_wrap64_add]
    rw [ih (c + 1) (x + (goLen w : Int)) (by omega)]
    have e2 : x + (goLen w : Int) + (totalLen ws : Int)
        = x + ((goLen w + totalLen ws : Nat) : Int) := by
      push_cast
      omega
    have e3 : c + 1 + ws.length = c + (ws.length + 1) := by omega
    rw [totalLen_cons, List.length_cons, e2, e3]

theorem sampleLoop64_eq (sample : List String) (hc : sample.length < 2 ^ 63) :
    sampleLoop64 sample = ((sample.length : Int), wrap64 (totalLen sample : Int)) := by
  have h := sampleLoop64_from sample 0 0 (by omega)
  rw [wrap64_zero] at h
  unfold sampleLoop64
  simp only [Nat.cast_zero] at h
  rw [h]
  simp

/-- A Go slice has fewer than `2 ^ 63` elements; on such a sample the counter does not wrap
and `multiFn64` computes what `multiFn` computes. -/
theorem multiFn64_eq_multiFn (word : String) (sample : List String)
    (hc : sample.length < 2 ^ 63) :
    multiFn64 word sample = multiFn word sample := by
  simp only [multiFn64, multiFn, sampleLoop64_eq sample hc, sampleLoop_eq,
    Int.natCast_eq_zero]

/-! ## Auxiliary lemmas: `subsetFn` -/

theorem fillLarger_apply (b : List String) (m : GoMap) (x : String) :
    fillLarger b m x = true ↔ x ∈ b ∨ m x = true := by
  induction b generalizing m with
  | nil => simp [fillLarger]
  | cons y ys ih =>
    have step : fillLarger (y :: ys) m = fillLarger ys (m.set y true) := rfl
    rw [step, ih]
    by_cases hxy : x = y
    · simp [GoMap.set, hxy]
    · simp [GoMap.set, hxy]

theorem larger_iff_mem (b : List String) (x : String) :
    fillLarger b GoMap.empty x = true ↔ x ∈ b := by
  rw [fillLarger_apply]
  simp [GoMap.empty]

theorem checkLoop_eq_none (m : GoMap) (a : List String) :
    checkLoop m a = none ↔ ∀ x ∈ a, m x = true := by
  induction a with
  | nil => simp [checkLoop]
  | cons y ys ih =>
    by_cases hy : m y = true
    · simp [checkLoop, hy, ih]
    · simp [checkLoop, hy]

theorem checkLoop_first (m : GoMap) (a : List String) (h : ∃ x ∈ a, m x ≠ true) :
    ∃ (i : Nat) (e : String), a[i]? = some e ∧ m e ≠ true ∧
      (∀ j, j < i → ∀ x, a[j]? = some x → m x = true) ∧
      checkLoop m a = some ("Extra element: " ++ e) := by
  induction a with
  | nil => simp at h
  | cons y ys ih =>
    by_cases hy : m y = true
    · have h2 : ∃ x ∈ ys, m x ≠ true := by
        obtain ⟨x, hx, hm⟩ := h
        rcases List.mem_cons.mp hx with rfl | hx
        · exact absurd hy hm
        · exact ⟨x, hx, hm⟩
      obtain ⟨i, e, hi, he, hpre, hres⟩ := ih h2
      refine ⟨i + 1, e, by simpa using hi, he, ?_, ?_⟩
      · intro j hj x hx
        cases j with
        | zero =>
          simp at hx
          rw [← hx]
          exact hy
        | succ k =>
          have hk : k < i := by omega
          exact hpre k hk x (by simpa using hx)
      · simp [checkLoop, hy, hres]
    · refine ⟨0, y, by simp, hy, ?_, ?_⟩
      · intro j hj
        omega
      · simp [checkLoop, hy]

/-! ## Auxiliary lemmas: nodes over `multiFn` -/

theorem parDo2_nil_main (sample : List String) :
    parDo2 multiFn [] sample = { small := [], big := [], err := none } := rfl

theorem parDo2_nil_sample (w : String) (ws : List String) :
    parDo2 multiFn (w :: ws) [] = { small := [], big := [], err := some "Empty sample" } := by
  simp [parDo2, multiFn_nil, smallOf, bigOf]

theorem parDo2_of_ne_nil (main sample : List String) (h : sample ≠ []) :
    parDo2 multiFn main sample =
      { small := shorter sample main, big := longer sample main, err := none } := by
  induction main with
  | nil => rfl
  | cons w ws ih =>
    by_cases hlt : goLen w < threshold sample
    · have hge : ¬ threshold sample ≤ goLen w := by omega
      simp [parDo2, multiFn_small w sample h hlt, ih, shorter, longer, smallOf, bigOf, hlt, hge]
    · have hge : threshold sample ≤ goLen w := by omega
      simp [parDo2, multiFn_big w sample h hlt, ih, shorter, longer, smallOf, bigOf, hlt, hge]

theorem mem_shorter (sample main : List String) (w : String) :
    w ∈ shorter sample main ↔ w ∈ main ∧ goLen w < threshold sample := by
  simp [shorter]

theorem mem_longer (sample main : List String) (w : String) :
    w ∈ longer sample main ↔ w ∈ main ∧ threshold sample ≤ goLen w := by
  simp [longer]

/-! ## Auxiliary lemmas: truncated averages and thresholds -/

theorem mul_length_le_totalLen (a : Nat) (l : List String) (h : ∀ w ∈ l, a ≤ goLen w) :
    a * l.length ≤ totalLen l := by
  induction l with
  | nil => simp [totalLen]
  | cons w ws ih =>
    have h1 : a ≤ goLen w := h w (List.mem_cons_self w ws)
    have h2 : a * ws.length ≤ totalLen ws := ih (fun x hx => h x (List.mem_cons_of_mem w hx))
    rw [totalLen_cons, List.length_cons, Nat.mul_succ]
    omega

theorem totalLen_le_mul_length (a : Nat) (l : List String) (h : ∀ w ∈ l, goLen w ≤ a) :
    totalLen l ≤ a * l.length := by
  induction l with
  | nil => simp [totalLen]
  | cons w ws ih =>
    have h1 : goLen w ≤ a := h w (List.mem_cons_self w ws)
    have h2 := ih (fun x hx => h x (List.mem_cons_of_mem w hx))
    rw [totalLen_cons, List.length_cons, Nat.mul_succ]
    omega

theorem totalLen_lt_mul_length (a : Nat) (l : List String) (hne : l ≠ [])
    (h : ∀ w ∈ l, goLen w < a) : totalLen l < a * l.length := by
  induction l with
  | nil => exact absurd rfl hne
  | cons w ws ih =>
    have h1 : goLen w < a := h w (List.mem_cons_self w ws)
    have h2 : totalLen ws ≤ a * ws.length :=
      totalLen_le_mul_length a ws (fun x hx => Nat.le_of_lt (h x (List.mem_cons_of_mem w hx)))
    rw [totalLen_cons, List.length_cons, Nat.mul_succ]
    omega

theorem length_pos_of_ne_nil (l : List String) (h : l ≠ []) : 0 < l.length :=
  List.length_pos.mpr h

theorem le_avgLen (a : Nat) (l : List String) (hne : l ≠ []) (h : ∀ w ∈ l, a ≤ goLen w) :
    a ≤ avgLen l := by
  unfold avgLen
  rw [Nat.le_div_iff_mul_le (length_pos_of_ne_nil l hne)]
  exact mul_length_le_totalLen a l h

theorem avgLen_lt (a : Nat) (l : List String) (hne : l ≠ []) (h : ∀ w ∈ l, goLen w < a) :
    avgLen l < a := by
  unfold avgLen
  rw [Nat.div_lt_iff_lt_mul (length_pos_of_ne_nil l hne)]
  exact totalLen_lt_mul_length a l hne h

theorem exists_ge_avgLen (l : List String) (hne : l ≠ []) :
    ∃ w ∈ l, avgLen l ≤ goLen w := by
  by_contra hcon
  have hall : ∀ w ∈ l, goLen w < avgLen l := by
    intro w hw
    by_contra hge
    exact hcon ⟨w, hw, by omega⟩
  exact absurd (avgLen_lt (avgLen l) l hne hall) (lt_irrefl _)

theorem exists_ge_threshold (l : List String) (hne : l ≠ []) :
    ∃ w ∈ l, threshold l ≤ goLen w := by
  obtain ⟨w, hw, hge⟩ := exists_ge_avgLen l hne
  exact ⟨w, hw, le_trans (threshold_le_avgLen l) hge⟩

theorem threshold_lt (a : Nat) (l : List String) (hne : l ≠ []) (h : ∀ w ∈ l, goLen w < a) :
    threshold l < a :=
  lt_of_le_of_lt (threshold_le_avgLen l) (avgLen_lt a l hne h)

theorem longer_self_ne_nil (l : List String) (hne : l ≠ []) : longer l l ≠ [] := by
  obtain ⟨w, hw, hge⟩ := exists_ge_threshold l hne
  exact List.ne_nil_of_mem ((mem_longer l l w).mpr ⟨hw, hge⟩)

theorem totalLen_filter_add (a : Nat) (l : List String) :
    totalLen (l.filter (fun w => decide (goLen w < a)))
      + totalLen (l.filter (fun w => decide (a ≤ goLen w))) = totalLen l := by
  induction l with
  | nil => rfl
  | cons w ws ih =>
    by_cases h : goLen w < a
    · have h2 : ¬ a ≤ goLen w := by omega
      simp only [List.filter_cons, h, h2, decide_True, decide_False, if_true, totalLen_cons]
      simp only [Bool.false_eq_true, if_false]
      omega
    · have h2 : a ≤ goLen w := by omega
      simp only [List.filter_cons, h, h2, decide_True, decide_False, if_true, totalLen_cons]
      simp only [Bool.false_eq_true, if_false]
      omega

theorem length_filter_add (a : Nat) (l : List String) :
    (l.filter (fun w => decide (goLen w < a))).length
      + (l.filter (fun w => decide (a ≤ goLen w))).length = l.length := by
  induction l with
  | nil => rfl
  | cons w ws ih =>
    by_cases h : goLen w < a
    · have h2 : ¬ a ≤ goLen w := by omega
      simp only [List.filter_cons, h, h2, decide_True, decide_False, if_true, List.length_cons]
      simp only [Bool.false_eq_true, if_false]
      omega
    · have h2 : a ≤ goLen w := by omega
      simp only [List.filter_cons, h, h2, decide_True, decide_False, if_true, List.length_cons]
      simp only [Bool.false_eq_true, if_false]
      omega

theorem wrapTotal_sub (T t : Nat) (hle : t ≤ T)
    (hpos : t ≤ (wrap64 (T : Int)).toNat) (hne : 0 < (wrap64 (T : Int)).toNat) :
    (wrap64 ((T - t : Nat) : Int)).toNat = (wrap64 (T : Int)).toNat - t := by
  unfold wrap64 at *
  omega

/-- Dropping the words below the threshold of a list does not lower the threshold, 64-bit
wrap-around included: the wrapped sum stays positive and shrinks by what is dropped. -/
theorem threshold_le_threshold_longer (l : List String) (hne : l ≠ []) :
    threshold l ≤ threshold (longer l l) := by
  by_cases ha : threshold l = 0
  · rw [ha]
    exact Nat.zero_le _
  · have hn : 0 < l.length := length_pos_of_ne_nil l hne
    have hK : longer l l ≠ [] := longer_self_ne_nil l hne
    have hk : 0 < (longer l l).length := length_pos_of_ne_nil _ hK
    have hS : threshold l * l.length ≤ wrapTotal l := Nat.div_mul_le_self _ _
    have hRt : totalLen (shorter l l) ≤ threshold l * (shorter l l).length :=
      totalLen_le_mul_length _ _
        (fun w hw => Nat.le_of_lt ((mem_shorter l l w).mp hw).2)
    have hsum : totalLen (shorter l l) + totalLen (longer l l) = totalLen l :=
      totalLen_filter_add (threshold l) l
    have hlen : (shorter l l).length + (longer l l).length = l.length :=
      length_filter_add (threshold l) l
    have hmul : threshold l * l.length
        = threshold l * (shorter l l).length + threshold l * (longer l l).length := by
      rw [← hlen, Nat.mul_add]
    have hpos : 0 < threshold l * l.length := Nat.mul_pos (Nat.pos_of_ne_zero ha) hn
    have hmle : threshold l * (shorter l l).length ≤ threshold l * l.length := by
      rw [hmul]
      exact Nat.le_add_right _ _
    have hT : totalLen (longer l l) = totalLen l - totalLen (shorter l l) := by omega
    have hw : wrapTotal (longer l l) = wrapTotal l - totalLen (shorter l l) := by
      unfold wrapTotal at hS hpos ⊢
      rw [hT]
      exact wrapTotal_sub (totalLen l) (totalLen (shorter l l)) (by omega) (by omega)
        (by omega)
    unfold threshold at ha ⊢
    rw [Nat.le_div_iff_mul_le hk, hw]
    unfold threshold at hS hRt hmul
    omega

/-- Dropping the words below a bound that is at most the truncated average does not lower
the truncated average. -/
theorem avgLen_le_avgLen_filter (a : Nat) (l : List String) (ha : a ≤ avgLen l)
    (hK : l.filter (fun w => decide (a ≤ goLen w)) ≠ []) :
    avgLen l ≤ avgLen (l.filter (fun w => decide (a ≤ goLen w))) := by
  have hk := length_pos_of_ne_nil _ hK
  have hS : avgLen l * l.length ≤ totalLen l := Nat.div_mul_le_self _ _
  have hRt : totalLen (l.filter (fun w => decide (goLen w < a)))
      ≤ a * (l.filter (fun w => decide (goLen w < a))).length :=
    totalLen_le_mul_length _ _ (fun w hw => by
      have := (List.mem_filter.mp hw).2
      simp only [decide_eq_true_eq] at this
      omega)
  have hRA : a * (l.filter (fun w => decide (goLen w < a))).length
      ≤ avgLen l * (l.filter (fun w => decide (goLen w < a))).length :=
    Nat.mul_le_mul_right _ ha
  have hsum := totalLen_filter_add a l
  have hlen := length_filter_add a l
  have hmul : avgLen l * l.length
      = avgLen l * (l.filter (fun w => decide (goLen w < a))).length
        + avgLen l * (l.filter (fun w => decide (a ≤ goLen w))).length := by
    rw [← hlen, Nat.mul_add]
  have key : avgLen l * (l.filter (fun w => decide (a ≤ goLen w))).length
      ≤ totalLen (l.filter (fun w => decide (a ≤ goLen w))) := by omega
  show avgLen l ≤ totalLen _ / _
  rw [Nat.le_div_iff_mul_le hk]
  exact key

/-! ## Auxiliary lemmas: the four nodes of `stitch` -/

theorem shorter_eq_nil_iff (sample main : List String) :
    shorter sample main = [] ↔ ∀ w ∈ main, threshold sample ≤ goLen w := by
  unfold shorter
  rw [List.filter_eq_nil_iff]
  constructor
  · intro h w hw
    have := h w hw
    simp at this
    exact this
  · intro h w hw
    have := h w hw
    simp
    exact this

theorem longer_eq_self_iff (sample main : List String) :
    longer sample main = main ↔ ∀ w ∈ main, threshold sample ≤ goLen w := by
  unfold longer
  rw [List.filter_eq_self]
  simp

theorem shorter_eq_self_iff (sample main : List String) :
    shorter sample main = main ↔ ∀ w ∈ main, goLen w < threshold sample := by
  unfold shorter
  rw [List.filter_eq_self]
  simp

theorem longer_eq_nil_iff (sample main : List String) :
    longer sample main = [] ↔ ∀ w ∈ main, goLen w < threshold sample := by
  unfold longer
  rw [List.filter_eq_nil_iff]
  constructor
  · intro h w hw
    have := h w hw
    simp at this
    exact this
  · intro h w hw
    have := h w hw
    simp
    exact this

theorem big2_ne_nil (W : List String) (hne : W ≠ []) : longer (longer W W) W ≠ [] := by
  obtain ⟨w, hw, hge⟩ := exists_ge_threshold (longer W W) (longer_self_ne_nil W hne)
  exact List.ne_nil_of_mem
    ((mem_longer (longer W W) W w).mpr ⟨((mem_longer W W w).mp hw).1, hge⟩)

/-- The words of `W` not below the threshold of `big1` are the words of `big1` not below
it, because the threshold of `big1` is at least the threshold of `W`. -/
theorem big2_eq_longer_big1 (W : List String) (hne : W ≠ []) :
    longer (longer W W) W = longer (longer W W) (longer W W) := by
  have hle := threshold_le_threshold_longer W hne
  have e : longer (longer W W) (longer W W)
      = (W.filter (fun w => decide (threshold W ≤ goLen w))).filter
          (fun w => decide (threshold (longer W W) ≤ goLen w)) := rfl
  rw [e, List.filter_filter]
  show W.filter (fun w => decide (threshold (longer W W) ≤ goLen w)) = _
  apply List.filter_congr
  intro w _
  by_cases h : threshold (longer W W) ≤ goLen w
  · have h2 : threshold W ≤ goLen w := by omega
    simp [h, h2]
  · simp [h]

theorem threshold_big1_le_threshold_big2 (W : List String) (hne : W ≠ []) :
    threshold (longer W W) ≤ threshold (longer (longer W W) W) := by
  rw [big2_eq_longer_big1 W hne]
  exact threshold_le_threshold_longer (longer W W) (longer_self_ne_nil W hne)

theorem nodeA_eq (W : List String) :
    (stitchNodes W).nodeA = { small := shorter W W, big := longer W W, err := none } := by
  show parDo2 multiFn W W = _
  by_cases hne : W = []
  · subst hne
    rfl
  · exact parDo2_of_ne_nil W W hne

theorem nodeB_eq (W : List String) :
    (stitchNodes W).nodeB =
      { small := shorter (longer W W) W, big := longer (longer W W) W, err := none } := by
  show parDo2 multiFn W (stitchNodes W).nodeA.big = _
  rw [nodeA_eq]
  by_cases hne : W = []
  · subst hne
    rfl
  · exact parDo2_of_ne_nil W (longer W W) (longer_self_ne_nil W hne)

theorem nodeC_def (W : List String) :
    (stitchNodes W).nodeC =
      parDo2 multiFn (longer (longer W W) W) (shorter W W) := by
  show parDo2 multiFn (stitchNodes W).nodeB.big (stitchNodes W).nodeA.small = _
  rw [nodeA_eq, nodeB_eq]

theorem nodeD_def (W : List String) :
    (stitchNodes W).nodeD =
      parDo2 multiFn (shorter (longer W W) W) (stitchNodes W).nodeC.big := by
  show parDo2 multiFn (stitchNodes W).nodeB.small (stitchNodes W).nodeC.big = _
  rw [nodeB_eq]

theorem nodeC_nil : (stitchNodes []).nodeC = { small := [], big := [], err := none } := rfl

theorem nodeC_ok (W : List String) (h : shorter W W ≠ []) :
    (stitchNodes W).nodeC =
      { small := [], big := longer (longer W W) W, err := none } := by
  have hne : W ≠ [] := by
    intro h0
    subst h0
    exact h rfl
  rw [nodeC_def, parDo2_of_ne_nil _ _ h]
  have hlt : threshold (shorter W W) < threshold W :=
    threshold_lt (threshold W) (shorter W W) h (fun w hw => ((mem_shorter W W w).mp hw).2)
  have hle := threshold_le_threshold_longer W hne
  have hall : ∀ w ∈ longer (longer W W) W, threshold (shorter W W) ≤ goLen w := by
    intro w hw
    have := ((mem_longer (longer W W) W w).mp hw).2
    omega
  rw [(shorter_eq_nil_iff _ _).mpr hall, (longer_eq_self_iff _ _).mpr hall]

theorem nodeC_fail (W : List String) (hne : W ≠ []) (h : shorter W W = []) :
    (stitchNodes W).nodeC = { small := [], big := [], err := some "Empty sample" } := by
  rw [nodeC_def, h]
  obtain ⟨w, ws, hcons⟩ := List.exists_cons_of_ne_nil (big2_ne_nil W hne)
  rw [hcons]
  exact parDo2_nil_sample w ws

theorem small2_nil_of_small1_nil (W : List String) (h : shorter W W = []) :
    shorter (longer W W) W = [] := by
  have hall := (shorter_eq_nil_iff W W).mp h
  rw [(longer_eq_self_iff W W).mpr hall]
  exact h

theorem nodeD_eq (W : List String) :
    (stitchNodes W).nodeD =
      { small := shorter (longer W W) W, big := [], err := none } := by
  rw [nodeD_def]
  by_cases h : shorter W W = []
  · rw [small2_nil_of_small1_nil W h]
    rfl
  · have hne : W ≠ [] := by
      intro h0
      subst h0
      exact h rfl
    rw [nodeC_ok W h, parDo2_of_ne_nil _ _ (big2_ne_nil W hne)]
    have hle := threshold_big1_le_threshold_big2 W hne
    have hall : ∀ w ∈ shorter (longer W W) W,
        goLen w < threshold (longer (longer W W) W) := by
      intro w hw
      have := ((mem_shorter (longer W W) W w).mp hw).2
      omega
    rw [(shorter_eq_self_iff _ _).mpr hall, (longer_eq_nil_iff _ _).mpr hall]

theorem subsetFn_eq_none_iff (A B : List String) :
    subsetFn A B = none ↔ ∀ x ∈ A, x ∈ B := by
  unfold subsetFn
  rw [checkLoop_eq_none]
  constructor
  · intro h x hx
    exact (larger_iff_mem B x).mp (h x hx)
  · intro h x hx
    exact (larger_iff_mem B x).mpr (h x hx)

theorem nodeC_big_subset (W : List String) :
    ∀ w ∈ (stitchNodes W).nodeC.big, w ∈ longer (longer W W) W := by
  intro w hw
  by_cases h : shorter W W = []
  · by_cases hne : W = []
    · subst hne
      rw [nodeC_nil] at hw
      simp at hw
    · rw [nodeC_fail W hne h] at hw
      simp at hw
  · rw [nodeC_ok W h] at hw
    exact hw

theorem shorter_sublist_of_le (S T main : List String) (h : threshold S ≤ threshold T) :
    (shorter S main).Sublist (shorter T main) := by
  unfold shorter
  apply List.monotone_filter_right
  intro w hw
  simp only [decide_eq_true_eq] at hw ⊢
  omega

theorem longer_sublist_of_le (S T main : List String) (h : threshold S ≤ threshold T) :
    (longer T main).Sublist (longer S main) := by
  unfold longer
  apply List.monotone_filter_right
  intro w hw
  simp only [decide_eq_true_eq] at hw ⊢
  omega

theorem shorter_sublist_small2 (W : List String) (hne : W ≠ []) :
    (shorter W W).Sublist (shorter (longer W W) W) :=
  shorter_sublist_of_le W (longer W W) W (threshold_le_threshold_longer W hne)

theorem big2_sublist_longer (W : List String) (hne : W ≠ []) :
    (longer (longer W W) W).Sublist (longer W W) :=
  longer_sublist_of_le W (longer W W) W (threshold_le_threshold_longer W hne)

/-- The truncated average length of `big1` is at least that of `W`. -/
theorem avgLen_le_avgLen_longer (W : List String) (hne : W ≠ []) :
    avgLen W ≤ avgLen (longer W W) :=
  avgLen_le_avgLen_filter (threshold W) W (threshold_le_avgLen W) (longer_self_ne_nil W hne)

theorem stitch_fst_eq (W : List String) :
    (stitch W).1 = shorter (longer W W) W := by
  show (stitchNodes W).nodeD.small = _
  rw [nodeD_eq]

theorem stitch_snd_eq_of_ok (W : List String) (hC : (stitchNodes W).nodeC.err = none) :
    (stitch W).2 = longer (longer W W) W := by
  show (stitchNodes W).nodeC.big = _
  by_cases h : shorter W W = []
  · by_cases hne : W = []
    · subst hne
      rfl
    · rw [nodeC_fail W hne h] at hC
      simp at hC
  · rw [nodeC_ok W h]

theorem longer_eq_filter_not (S main : List String) :
    longer S main = main.filter (fun w => !decide (goLen w < threshold S)) := by
  unfold longer
  apply List.filter_congr
  intro w _
  by_cases h : goLen w < threshold S
  · have h2 : ¬ threshold S ≤ goLen w := by omega
    simp [h, h2]
  · have h2 : threshold S ≤ goLen w := by omega
    simp [h, h2]

theorem shorter_append_longer_perm (S main : List String) :
    (shorter S main ++ longer S main).Perm main := by
  rw [longer_eq_filter_not]
  exact List.filter_append_perm (fun w => decide (goLen w < threshold S)) main

/-! ## Auxiliary lemmas: the graph of `stitch` and single-byte strings -/

theorem stitchGraph_nodes :
    (stitchGraph [] PCol.source).1 =
      [{ scope := "ping", mainInput := PCol.source, sideInput := PCol.source },
       { scope := "ping", mainInput := PCol.source, sideInput := PCol.out 0 Slot.big },
       { scope := "ping", mainInput := PCol.out 1 Slot.big, sideInput := PCol.out 0 Slot.small },
       { scope := "ping", mainInput := PCol.out 1 Slot.small,
         sideInput := PCol.out 2 Slot.big }] := by
  decide

/-- Running the graph built by `stitch` node by node gives the four nodes of `stitchNodes`. -/
theorem runGraph_stitchGraph (W : List String) :
    runGraph (stitchGraph [] PCol.source).1 W =
      [(stitchNodes W).nodeA, (stitchNodes W).nodeB, (stitchNodes W).nodeC,
        (stitchNodes W).nodeD] := by
  rw [stitchGraph_nodes]
  rfl

theorem dependsOn_lt (i j : Nat)
    (h : dependsOn (stitchGraph [] PCol.source).1 i j = true) : j < i := by
  rw [stitchGraph_nodes] at h
  rcases i with _ | _ | _ | _ | i
  · simp [dependsOn, producer] at h
  · simp [dependsOn, producer] at h
    omega
  · simp [dependsOn, producer] at h
    omega
  · simp [dependsOn, producer] at h
    omega
  · simp [dependsOn] at h

theorem transGen_dependsOn_lt (i j : Nat)
    (h : Relation.TransGen
      (fun a b => dependsOn (stitchGraph [] PCol.source).1 a b = true) i j) : j < i := by
  induction h with
  | single hab => exact dependsOn_lt _ _ hab
  | tail _ hbc ih => exact lt_trans (dependsOn_lt _ _ hbc) ih

theorem utf8Size_of_ascii (c : Char) (h : c.val.toNat < 128) : c.utf8Size = 1 := by
  unfold Char.utf8Size
  have hle : c.val ≤ (127 : UInt32) := by
    rw [UInt32.le_def]
    show c.val.toNat ≤ 127
    omega
  exact if_pos hle

theorem utf8ByteSize_go_of_ascii (cs : List Char) (h : ∀ c ∈ cs, c.val.toNat < 128) :
    String.utf8ByteSize.go cs = cs.length := by
  induction cs with
  | nil => rfl
  | cons c cs ih =>
    simp only [String.utf8ByteSize.go, List.length_cons]
    rw [ih (fun x hx => h x (List.mem_cons_of_mem c hx)),
      utf8Size_of_ascii c (h c (List.mem_cons_self c cs))]

theorem goLen_eq_charLen_of_ascii (s : String) (h : asciiOnly s = true) :
    goLen s = charLen s := by
  have h2 : ∀ c ∈ s.data, c.val.toNat < 128 := by
    intro c hc
    have := List.all_eq_true.mp h c hc
    simpa using this
  show String.utf8ByteSize.go s.data = s.data.length
  exact utf8ByteSize_go_of_ascii s.data h2

theorem map_goLen_eq_map_charLen (l : List String) (h : ∀ s ∈ l, asciiOnly s = true) :
    l.map goLen = l.map charLen :=
  List.map_congr_left (fun s hs => goLen_eq_charLen_of_ascii s (h s hs))

/-! ## Auxiliary lemmas: a sample whose summed length wraps around -/

theorem goLen_wrapWord : goLen wrapWord = 2 ^ 32 := by
  have h : ∀ c ∈ List.replicate (2 ^ 32) 'a', c.val.toNat < 128 := by
    intro c hc
    rw [List.eq_of_mem_replicate hc]
    decide
  show String.utf8ByteSize.go (List.replicate (2 ^ 32) 'a') = 2 ^ 32
  rw [utf8ByteSize_go_of_ascii _ h, List.length_replicate]

theorem length_wrapSample : wrapSample.length = 2 ^ 31 :=
  List.length_replicate _ _

theorem totalLen_replicate (n : Nat) (s : String) :
    totalLen (List.replicate n s) = n * goLen s := by
  induction n with
  | zero => simp [totalLen]
  | succ k ih =>
    rw [List.replicate_succ, totalLen_cons, ih, Nat.succ_mul]
    omega

theorem totalLen_wrapSample : totalLen wrapSample = 2 ^ 63 :=
  (totalLen_replicate (2 ^ 31) wrapWord).trans
    ((congrArg (fun g => 2 ^ 31 * g) goLen_wrapWord).trans (by decide))

theorem goLen_empty : goLen "" = 0 := rfl

theorem ne_nil_of_length_eq (l : List String) (hn : l.length = 2 ^ 31) : l ≠ [] := by
  intro h
  rw [h] at hn
  exact absurd hn (by decide)

theorem threshold_of_total_eq (l : List String) (h : totalLen l = 2 ^ 63) :
    threshold l = 0 := by
  have hw : wrapTotal l = 0 := by
    unfold wrapTotal wrap64
    omega
  unfold threshold
  rw [hw, Nat.zero_div]

theorem avgLen_pos_of_overflow (l : List String) (n : Nat) (hn : l.length = n)
    (hpos : 0 < n) (hle : n ≤ 2 ^ 63) (hT : totalLen l = 2 ^ 63) :
    0 < (l.map goLen).sum / l.length := by
  show 0 < totalLen l / l.length
  rw [hT, hn]
  exact Nat.div_pos hle hpos

/-- When the threshold of the sample is zero every word goes to big. -/
theorem parDo2_of_threshold_zero (main sample : List String) (h : sample ≠ [])
    (h0 : threshold sample = 0) :
    parDo2 multiFn main sample = { small := [], big := main, err := none } := by
  rw [parDo2_of_ne_nil main sample h]
  have hall : ∀ w ∈ main, threshold sample ≤ goLen w := by
    intro w _
    rw [h0]
    exact Nat.zero_le _
  rw [(shorter_eq_nil_iff _ _).mpr hall, (longer_eq_self_iff _ _).mpr hall]

/-- On a sample of `2 ^ 31` strings whose summed length is `2 ^ 63`, `size` wraps to a
negative value and `multiFn` sends the empty word to big, although its length is below the
truncated average. -/
theorem multiFn_of_overflow (l : List String) (hn : l.length = 2 ^ 31)
    (hT : totalLen l = 2 ^ 63) :
    l ≠ [] ∧
    goLen "" < (l.map goLen).sum / l.length ∧
    multiFn "" l = { calls := [Emit.big ""], err := none } ∧
    ¬ ((multiFn "" l).calls = [Emit.small ""] ↔
      goLen "" < (l.map goLen).sum / l.length) := by
  have hne := ne_nil_of_length_eq l hn
  have havg : goLen "" < (l.map goLen).sum / l.length := by
    rw [goLen_empty]
    exact avgLen_pos_of_overflow l (2 ^ 31) hn (by decide) (by decide) hT
  have hbig : multiFn "" l = { calls := [Emit.big ""], err := none } := by
    apply multiFn_big "" l hne
    rw [threshold_of_total_eq l hT]
    exact Nat.not_lt_zero _
  refine ⟨hne, havg, hbig, ?_⟩
  intro hiff
  have := hiff.mpr havg
  rw [hbig] at this
  simp at this

/-- The same overflow in the self-sample node: with the empty word in front of such a
sample, every word goes to big and nothing to small. -/
theorem baseline_of_overflow (l : List String) (hn : l.length = 2 ^ 31)
    (hT : totalLen l = 2 ^ 63) :
    goLen "" < (("" :: l).map goLen).sum / ("" :: l).length ∧
    baseline ("" :: l) = { small := [], big := "" :: l, err := none } ∧
    (baseline ("" :: l)).small ≠
      ("" :: l).filter
        (fun w => decide (goLen w < (("" :: l).map goLen).sum / ("" :: l).length)) := by
  have hT2 : totalLen ("" :: l) = 2 ^ 63 := by
    rw [totalLen_cons, hT, goLen_empty, Nat.zero_add]
  have hn2 : ("" :: l).length = 2 ^ 31 + 1 := by
    rw [List.length_cons, hn]
  have havg : goLen "" < (("" :: l).map goLen).sum / ("" :: l).length := by
    rw [goLen_empty]
    exact avgLen_pos_of_overflow ("" :: l) (2 ^ 31 + 1) hn2 (by decide) (by decide) hT2
  have hbase : baseline ("" :: l) = { small := [], big := "" :: l, err := none } :=
    parDo2_of_threshold_zero ("" :: l) ("" :: l) (List.cons_ne_nil _ _)
      (threshold_of_total_eq _ hT2)
  refine ⟨havg, hbase, ?_⟩
  rw [hbase]
  intro h
  have hmem : "" ∈ ("" :: l).filter
      (fun w => decide (goLen w < (("" :: l).map goLen).sum / ("" :: l).length)) :=
    List.mem_filter.mpr ⟨List.mem_cons_self _ _, decide_eq_true havg⟩
  rw [← h] at hmem
  exact absurd hmem (List.not_mem_nil _)

/-- The same overflow in `stitch`: `small1` is empty although the empty word is below the
truncated average, and the third node returns the error. -/
theorem nodeC_of_overflow (l : List String) (hn : l.length = 2 ^ 31)
    (hT : totalLen l = 2 ^ 63) :
    (∃ w ∈ "" :: l, goLen w < (("" :: l).map goLen).sum / ("" :: l).length) ∧
    (stitchNodes ("" :: l)).nodeA.small = [] ∧
    (stitchNodes ("" :: l)).nodeC.err = some "Empty sample" ∧
    ¬ ((stitchNodes ("" :: l)).nodeC.err = some "Empty sample" ↔
      ("" :: l ≠ [] ∧
        ∀ w ∈ "" :: l, ¬ goLen w < (("" :: l).map goLen).sum / ("" :: l).length)) := by
  have hT2 : totalLen ("" :: l) = 2 ^ 63 := by
    rw [totalLen_cons, hT, goLen_empty, Nat.zero_add]
  have hn2 : ("" :: l).length = 2 ^ 31 + 1 := by
    rw [List.length_cons, hn]
  have havg : goLen "" < (("" :: l).map goLen).sum / ("" :: l).length := by
    rw [goLen_empty]
    exact avgLen_pos_of_overflow ("" :: l) (2 ^ 31 + 1) hn2 (by decide) (by decide) hT2
  have hsmall : shorter ("" :: l) ("" :: l) = [] := by
    rw [shorter_eq_nil_iff, threshold_of_total_eq _ hT2]
    intro w _
    exact Nat.zero_le _
  have hC := nodeC_fail ("" :: l) (List.cons_ne_nil _ _) hsmall
  have hA := nodeA_eq ("" :: l)
  refine ⟨⟨"", List.mem_cons_self _ _, havg⟩, ?_, ?_, ?_⟩
  · rw [hA]
    exact hsmall
  · rw [hC]
  · intro hiff
    have h2 := (hiff.mp (by rw [hC])).2 "" (List.mem_cons_self _ _)
    exact h2 havg

/-! ## Claims about `multiFn` -/

/-- C1, as stated, fails when the summed length of the sample does not fit a 64-bit `int`:
for the sample of `2 ^ 31` references to a string of `2 ^ 32` bytes the sum is `2 ^ 63`,
`size` wraps to a negative value, and `multiFn` sends the empty word to big although its
length 0 is below the truncated average `2 ^ 32`. -/
theorem multiFn_overflow_sends_short_word_to_big :
    wrapSample ≠ [] ∧
    goLen "" < (wrapSample.map goLen).sum / wrapSample.length ∧
    multiFn "" wrapSample = { calls := [Emit.big ""], err := none } ∧
    ¬ ((multiFn "" wrapSample).calls = [Emit.small ""] ↔
      goLen "" < (wrapSample.map goLen).sum / wrapSample.length) :=
  multiFn_of_overflow wrapSample length_wrapSample totalLen_wrapSample

/-- C1, amended: for every word and every non-empty sample whose summed length is below
`2 ^ 63` (so that the 64-bit `size` does not wrap), `multiFn` returns no error; it calls the
small emitter with the word exactly when the length of the word is strictly below the summed
length of the sample divided (truncating) by the number of sample elements, and it calls the
big emitter with the word exactly when it is not. -/
theorem multiFn_small_iff_below_average (word : String) (sample : List String)
    (h : sample ≠ []) (hs : (sample.map goLen).sum < 2 ^ 63) :
    (multiFn word sample).err = none ∧
    ((multiFn word sample).calls = [Emit.small word] ↔
      goLen word < (sample.map goLen).sum / sample.length) ∧
    ((multiFn word sample).calls = [Emit.big word] ↔
      ¬ goLen word < (sample.map goLen).sum / sample.length) := by
  have key := multiFn_of_ne_nil word sample h
  rw [threshold_of_lt sample hs] at key
  simp only [avgLen, totalLen] at key
  by_cases hlt : goLen word < (sample.map goLen).sum / sample.length
  · rw [if_pos hlt] at key
    simp [key, hlt]
  · rw [if_neg hlt] at key
    simp [key, hlt]

theorem multiFn_small_iff_below_average_witness :
    (["a", "bb", "ccc"] ≠ [] ∧ (["a", "bb", "ccc"].map goLen).sum < 2 ^ 63) ∧
    ((multiFn "a" ["a", "bb", "ccc"]).err = none ∧
    ((multiFn "a" ["a", "bb", "ccc"]).calls = [Emit.small "a"] ↔
      goLen "a" < (["a", "bb", "ccc"].map goLen).sum / ["a", "bb", "ccc"].length) ∧
    ((multiFn "a" ["a", "bb", "ccc"]).calls = [Emit.big "a"] ↔
      ¬ goLen "a" < (["a", "bb", "ccc"].map goLen).sum / ["a", "bb", "ccc"].length)) :=
  ⟨⟨by decide, by decide⟩,
    multiFn_small_iff_below_average "a" ["a", "bb", "ccc"] (by decide) (by decide)⟩

/-- C2: for every word, `multiFn` returns an error exactly when the sample has no element,
the error is then "Empty sample", and whenever an error is returned no emitter has been
called. -/
theorem multiFn_error_iff_empty_sample (word : String) (sample : List String) :
    ((multiFn word sample).err ≠ none ↔ sample = []) ∧
    ((multiFn word sample).err = some "Empty sample" ↔ sample = []) ∧
    ((multiFn word sample).err = none ∨
      ((multiFn word sample).calls = [] ∧
        smallOf (multiFn word sample).calls = [] ∧ bigOf (multiFn word sample).calls = [])) := by
  by_cases h : sample = []
  · subst h
    rw [multiFn_nil]
    simp [smallOf, bigOf]
  · have key := multiFn_of_ne_nil word sample h
    by_cases hlt : goLen word < threshold sample
    · rw [if_pos hlt] at key
      simp [key, h]
    · rw [if_neg hlt] at key
      simp [key, h]

/-- C3: for every word and every non-empty sample, `multiFn` makes exactly one emitter call,
with the unchanged word: either the small emitter receives the word and the big emitter
nothing, or the big emitter receives the word and the small emitter nothing. -/
theorem multiFn_emits_exactly_once (word : String) (sample : List String) (h : sample ≠ []) :
    (multiFn word sample).calls.length = 1 ∧
    ((multiFn word sample).calls = [Emit.small word] ∨
      (multiFn word sample).calls = [Emit.big word]) ∧
    ((smallOf (multiFn word sample).calls = [word] ∧ bigOf (multiFn word sample).calls = []) ∨
      (smallOf (multiFn word sample).calls = [] ∧ bigOf (multiFn word sample).calls = [word])) ∧
    ¬ (smallOf (multiFn word sample).calls ≠ [] ∧ bigOf (multiFn word sample).calls ≠ []) := by
  have key := multiFn_of_ne_nil word sample h
  by_cases hlt : goLen word < threshold sample
  · rw [if_pos hlt] at key
    simp [key, smallOf, bigOf]
  · rw [if_neg hlt] at key
    simp [key, smallOf, bigOf]

theorem multiFn_emits_exactly_once_witness :
    ["", ""] ≠ [] ∧
    ((multiFn "" ["", ""]).calls.length = 1 ∧
    ((multiFn "" ["", ""]).calls = [Emit.small ""] ∨
      (multiFn "" ["", ""]).calls = [Emit.big ""]) ∧
    ((smallOf (multiFn "" ["", ""]).calls = [""] ∧ bigOf (multiFn "" ["", ""]).calls = []) ∨
      (smallOf (multiFn "" ["", ""]).calls = [] ∧ bigOf (multiFn "" ["", ""]).calls = [""])) ∧
    ¬ (smallOf (multiFn "" ["", ""]).calls ≠ [] ∧ bigOf (multiFn "" ["", ""]).calls ≠ [])) :=
  ⟨by decide, multiFn_emits_exactly_once "" ["", ""] (by decide)⟩

/-! ## Claims about `subsetFn` -/

/-- C4: for all sequences `A` and `B`, `subsetFn` with `a = A` and `b = B` returns nil
exactly when every element of `A` occurs in `B` (membership only: neither the order nor the
multiplicities in `B` matter); in particular an empty `A` always succeeds. -/
theorem subsetFn_nil_iff_subset (A B : List String) :
    (subsetFn A B = none ↔ ∀ x ∈ A, x ∈ B) ∧ subsetFn [] B = none :=
  ⟨subsetFn_eq_none_iff A B, (subsetFn_eq_none_iff [] B).mpr (by simp)⟩

/-- C5: when some element of `A` does not occur in `B`, `subsetFn` fails with the error
"Extra element: e", where `e` stands at the smallest index of `A` whose element is not in
`B`; that `e` is in `A` and not in `B`. -/
theorem subsetFn_names_first_extra (A B : List String) (h : ∃ x ∈ A, x ∉ B) :
    ∃ (i : Nat) (e : String), A[i]? = some e ∧ e ∈ A ∧ e ∉ B ∧
      (∀ j, j < i → ∀ x, A[j]? = some x → x ∈ B) ∧
      subsetFn A B = some ("Extra element: " ++ e) := by
  have h2 : ∃ x ∈ A, fillLarger B GoMap.empty x ≠ true := by
    obtain ⟨x, hx, hnb⟩ := h
    exact ⟨x, hx, fun hm => hnb ((larger_iff_mem B x).mp hm)⟩
  obtain ⟨i, e, hi, he, hpre, hres⟩ := checkLoop_first (fillLarger B GoMap.empty) A h2
  refine ⟨i, e, hi, List.getElem?_mem hi, ?_, ?_, hres⟩
  · intro hm
    exact he ((larger_iff_mem B e).mpr hm)
  · intro j hj x hx
    exact (larger_iff_mem B x).mp (hpre j hj x hx)

theorem subsetFn_names_first_extra_witness :
    (∃ x ∈ ["x", "y"], x ∉ ["y"]) ∧
    (∃ (i : Nat) (e : String), ["x", "y"][i]? = some e ∧ e ∈ ["x", "y"] ∧ e ∉ ["y"] ∧
      (∀ j, j < i → ∀ x, ["x", "y"][j]? = some x → x ∈ ["y"]) ∧
      subsetFn ["x", "y"] ["y"] = some ("Extra element: " ++ e)) ∧
    subsetFn ["x", "y"] ["y"] = some "Extra element: x" :=
  ⟨⟨"x", by decide, by decide⟩,
    subsetFn_names_first_extra ["x", "y"] ["y"] ⟨"x", by decide, by decide⟩, by decide⟩

/-! ## Claims about the baseline node and the `stitch` graph -/

/-- C6, as stated, fails when the summed length of `W` does not fit a 64-bit `int`: for `W`
the empty word followed by `2 ^ 31` references to a string of `2 ^ 32` bytes, the empty word
is below the truncated average of `W`, yet `size` wraps to a negative value in every call
and the baseline node sends every word, the empty one included, to big. -/
theorem baseline_overflow_sends_all_to_big :
    goLen "" < (("" :: wrapSample).map goLen).sum / ("" :: wrapSample).length ∧
    baseline ("" :: wrapSample) = { small := [], big := "" :: wrapSample, err := none } ∧
    (baseline ("" :: wrapSample)).small ≠
      ("" :: wrapSample).filter
        (fun w => decide
          (goLen w < (("" :: wrapSample).map goLen).sum / ("" :: wrapSample).length)) :=
  baseline_of_overflow wrapSample length_wrapSample totalLen_wrapSample

set_option maxRecDepth 8192 in
/-- C6, amended: for every word list `W` whose summed length is below `2 ^ 63`, running
`multiFn` once per element of `W`, in order, with sample `W` (the baseline node of `main`,
which is also the first node of `stitch`) raises no error; the small output is the list of
the elements of `W` whose length is below the truncated average length of `W`, the big
output the list of those whose length is not, each in the order of `W`; for
`W = ["a", "bb", "ccc"]` this is small `["a"]`, big `["bb", "ccc"]`. -/
theorem baseline_self_sample (W : List String) (hs : (W.map goLen).sum < 2 ^ 63) :
    (baseline W).err = none ∧
    (baseline W).small =
      W.filter (fun w => decide (goLen w < (W.map goLen).sum / W.length)) ∧
    (baseline W).big =
      W.filter (fun w => decide ((W.map goLen).sum / W.length ≤ goLen w)) ∧
    (stitchNodes W).nodeA = baseline W ∧
    baseline ["a", "bb", "ccc"] = { small := ["a"], big := ["bb", "ccc"], err := none } := by
  have hA : baseline W = { small := shorter W W, big := longer W W, err := none } :=
    nodeA_eq W
  have hthr : threshold W = (W.map goLen).sum / W.length := threshold_of_lt W hs
  refine ⟨?_, ?_, ?_, rfl, by decide⟩
  · rw [hA]
  · rw [hA]
    show shorter W W = _
    unfold shorter
    rw [hthr]
  · rw [hA]
    show longer W W = _
    unfold longer
    rw [hthr]

theorem baseline_self_sample_witness :
    (["a", "bb", "ccc"].map goLen).sum < 2 ^ 63 ∧
    ((baseline ["a", "bb", "ccc"]).err = none ∧
    (baseline ["a", "bb", "ccc"]).small =
      ["a", "bb", "ccc"].filter
        (fun w => decide (goLen w <
          (["a", "bb", "ccc"].map goLen).sum / ["a", "bb", "ccc"].length)) ∧
    (baseline ["a", "bb", "ccc"]).big =
      ["a", "bb", "ccc"].filter
        (fun w => decide
          ((["a", "bb", "ccc"].map goLen).sum / ["a", "bb", "ccc"].length ≤ goLen w)) ∧
    (stitchNodes ["a", "bb", "ccc"]).nodeA = baseline ["a", "bb", "ccc"] ∧
    baseline ["a", "bb", "ccc"] = { small := ["a"], big := ["bb", "ccc"], err := none }) :=
  ⟨by decide, baseline_self_sample ["a", "bb", "ccc"] (by decide)⟩

/-- C7: for every word list `W` on which none of the four nodes of `stitch` raises an error,
both checks wired by `main` succeed: `subsetFn` with `a` the baseline small output and `b`
the first result of `stitch` returns nil, and `subsetFn` with `a` the second result of
`stitch` and `b` the baseline big output returns nil; so every baseline-small word is in
`small4` and every `big3` word is in the baseline big output. -/
theorem main_checks_succeed (W : List String)
    (_hA : (stitchNodes W).nodeA.err = none) (_hB : (stitchNodes W).nodeB.err = none)
    (_hC : (stitchNodes W).nodeC.err = none) (_hD : (stitchNodes W).nodeD.err = none) :
    subsetFn (baseline W).small (stitch W).1 = none ∧
    subsetFn (stitch W).2 (baseline W).big = none ∧
    mainChecks W = (none, none) ∧
    (∀ w ∈ (baseline W).small, w ∈ (stitch W).1) ∧
    (∀ w ∈ (stitch W).2, w ∈ (baseline W).big) := by
  have hbase : baseline W = { small := shorter W W, big := longer W W, err := none } :=
    nodeA_eq W
  have hst1 : (stitch W).1 = shorter (longer W W) W := by
    show (stitchNodes W).nodeD.small = _
    rw [nodeD_eq]
  have hst2 : (stitch W).2 = (stitchNodes W).nodeC.big := rfl
  have h1 : ∀ w ∈ (baseline W).small, w ∈ (stitch W).1 := by
    intro w hw
    rw [hbase] at hw
    rw [hst1]
    have hne : W ≠ [] := List.ne_nil_of_mem ((mem_shorter W W w).mp hw).1
    exact (shorter_sublist_small2 W hne).subset hw
  have h2 : ∀ w ∈ (stitch W).2, w ∈ (baseline W).big := by
    intro w hw
    rw [hst2] at hw
    rw [hbase]
    have hw2 := nodeC_big_subset W w hw
    have hne : W ≠ [] := List.ne_nil_of_mem ((mem_longer _ W w).mp hw2).1
    exact (big2_sublist_longer W hne).subset hw2
  have c1 := (subsetFn_eq_none_iff (baseline W).small (stitch W).1).mpr h1
  have c2 := (subsetFn_eq_none_iff (stitch W).2 (baseline W).big).mpr h2
  refine ⟨c1, c2, ?_, h1, h2⟩
  show (subsetFn (baseline W).small (stitch W).1, subsetFn (stitch W).2 (baseline W).big) = _
  rw [c1, c2]

set_option maxRecDepth 8192 in
theorem main_checks_succeed_witness :
    ((stitchNodes ["a", "bb", "ccc"]).nodeA.err = none ∧
      (stitchNodes ["a", "bb", "ccc"]).nodeB.err = none ∧
      (stitchNodes ["a", "bb", "ccc"]).nodeC.err = none ∧
      (stitchNodes ["a", "bb", "ccc"]).nodeD.err = none) ∧
    (subsetFn (baseline ["a", "bb", "ccc"]).small (stitch ["a", "bb", "ccc"]).1 = none ∧
    subsetFn (stitch ["a", "bb", "ccc"]).2 (baseline ["a", "bb", "ccc"]).big = none ∧
    mainChecks ["a", "bb", "ccc"] = (none, none) ∧
    (∀ w ∈ (baseline ["a", "bb", "ccc"]).small, w ∈ (stitch ["a", "bb", "ccc"]).1) ∧
    (∀ w ∈ (stitch ["a", "bb", "ccc"]).2, w ∈ (baseline ["a", "bb", "ccc"]).big)) :=
  ⟨⟨by decide, by decide, by decide, by decide⟩,
    main_checks_succeed ["a", "bb", "ccc"] (by decide) (by decide) (by decide) (by decide)⟩

/-- C8 ("more words are small"): for every non-empty word list `W`, the second node of
`stitch` (main input `W`, sample `big1`) raises no error; the truncated average length of
`big1` is at least that of `W`; every word that `multiFn` sends to small under the sample
`W` is sent to small under the sample `big1`; so `small1` is contained in `small2` and
`big2` is contained in `big1`, as sublists and hence as sets. -/
theorem more_words_are_small (W : List String) (hne : W ≠ []) :
    (stitchNodes W).nodeB.err = none ∧
    (W.map goLen).sum / W.length ≤
      (((stitchNodes W).nodeA.big).map goLen).sum / ((stitchNodes W).nodeA.big).length ∧
    (∀ w, (multiFn w W).calls = [Emit.small w] →
      (multiFn w (stitchNodes W).nodeA.big).calls = [Emit.small w]) ∧
    ((stitchNodes W).nodeA.small).Sublist (stitchNodes W).nodeB.small ∧
    ((stitchNodes W).nodeB.big).Sublist (stitchNodes W).nodeA.big ∧
    (∀ w ∈ (stitchNodes W).nodeA.small, w ∈ (stitchNodes W).nodeB.small) ∧
    (∀ w ∈ (stitchNodes W).nodeB.big, w ∈ (stitchNodes W).nodeA.big) := by
  have hle := avgLen_le_avgLen_longer W hne
  have hbig := longer_self_ne_nil W hne
  rw [nodeA_eq, nodeB_eq]
  refine ⟨rfl, hle, ?_, shorter_sublist_small2 W hne, big2_sublist_longer W hne,
    fun w hw => (shorter_sublist_small2 W hne).subset hw,
    fun w hw => (big2_sublist_longer W hne).subset hw⟩
  intro w hw
  have hthr := threshold_le_threshold_longer W hne
  by_cases hlt : goLen w < threshold W
  · have hlt2 : goLen w < threshold (longer W W) := by omega
    rw [multiFn_small w (longer W W) hbig hlt2]
  · rw [multiFn_big w W hne hlt] at hw
    simp at hw

theorem more_words_are_small_witness :
    ["a", "bb", "ccc"] ≠ [] ∧
    ((stitchNodes ["a", "bb", "ccc"]).nodeB.err = none ∧
    (["a", "bb", "ccc"].map goLen).sum / ["a", "bb", "ccc"].length ≤
      (((stitchNodes ["a", "bb", "ccc"]).nodeA.big).map goLen).sum /
        ((stitchNodes ["a", "bb", "ccc"]).nodeA.big).length ∧
    (∀ w, (multiFn w ["a", "bb", "ccc"]).calls = [Emit.small w] →
      (multiFn w (stitchNodes ["a", "bb", "ccc"]).nodeA.big).calls = [Emit.small w]) ∧
    ((stitchNodes ["a", "bb", "ccc"]).nodeA.small).Sublist
      (stitchNodes ["a", "bb", "ccc"]).nodeB.small ∧
    ((stitchNodes ["a", "bb", "ccc"]).nodeB.big).Sublist
      (stitchNodes ["a", "bb", "ccc"]).nodeA.big ∧
    (∀ w ∈ (stitchNodes ["a", "bb", "ccc"]).nodeA.small,
      w ∈ (stitchNodes ["a", "bb", "ccc"]).nodeB.small) ∧
    (∀ w ∈ (stitchNodes ["a", "bb", "ccc"]).nodeB.big,
      w ∈ (stitchNodes ["a", "bb", "ccc"]).nodeA.big)) :=
  ⟨by decide, more_words_are_small ["a", "bb", "ccc"] (by decide)⟩

/-- C9: the comment on the third node of `stitch` says that all words are big.  On
`W = ["a", "bb"]` the average is 1 and no word is shorter, so `small1` is empty while
`big2 = ["a", "bb"]`; the third node returns "Empty sample" on its first element and emits
nothing, so `big3` is empty and differs from `big2`. -/
theorem all_words_are_big_fails :
    (stitchNodes ["a", "bb"]).nodeA.small = [] ∧
    (stitchNodes ["a", "bb"]).nodeB.big = ["a", "bb"] ∧
    (stitchNodes ["a", "bb"]).nodeC = { small := [], big := [], err := some "Empty sample" } ∧
    ¬ ((stitchNodes ["a", "bb"]).nodeC.big = (stitchNodes ["a", "bb"]).nodeB.big) := by
  decide

/-- C10 ("all words are small"): for every word list `W`, the fourth node of `stitch` (main
input `small2`, sample `big3`) raises no error, sends every element of `small2` to the small
output and none to the big output: `small4 = small2` and the discarded big output is empty.
When the third node has raised an error, `small2` is empty and the fourth node has nothing to
process. -/
theorem all_words_are_small (W : List String) :
    (stitchNodes W).nodeD.err = none ∧
    (stitchNodes W).nodeD.small = (stitchNodes W).nodeB.small ∧
    (stitch W).1 = (stitchNodes W).nodeB.small ∧
    (stitchNodes W).nodeD.big = [] ∧
    ((stitchNodes W).nodeC.err = none ∨ (stitchNodes W).nodeB.small = []) := by
  have hD := nodeD_eq W
  have hB := nodeB_eq W
  refine ⟨by rw [hD], by rw [hD, hB], ?_, by rw [hD], ?_⟩
  · show (stitchNodes W).nodeD.small = _
    rw [hD, hB]
  · by_cases h : shorter W W = []
    · right
      rw [hB]
      exact small2_nil_of_small1_nil W h
    · left
      rw [nodeC_ok W h]

/-! ## Claims about the graph, the length measure, errors and the partition -/

/-- C11: the graph that `stitch` builds has the four nodes A, B, C, D with the inputs
A: words, words; B: words, big1 of A; C: big2 of B, small1 of A; D: small2 of B, big3 of C.
Counting main and side inputs alike, the direct dependencies are exactly B on A, C on B,
C on A, D on B and D on C; every dependency points to a node built earlier, so the
construction order is a topological order; no node depends on itself, directly or
transitively; and all four nodes carry the same composite label "ping". -/
theorem stitch_graph_is_dag :
    (stitchGraph [] PCol.source).1 =
      [{ scope := "ping", mainInput := PCol.source, sideInput := PCol.source },
       { scope := "ping", mainInput := PCol.source, sideInput := PCol.out 0 Slot.big },
       { scope := "ping", mainInput := PCol.out 1 Slot.big, sideInput := PCol.out 0 Slot.small },
       { scope := "ping", mainInput := PCol.out 1 Slot.small,
         sideInput := PCol.out 2 Slot.big }] ∧
    (stitchGraph [] PCol.source).2 = (PCol.out 3 Slot.small, PCol.out 2 Slot.big) ∧
    (∀ i j, dependsOn (stitchGraph [] PCol.source).1 i j = true ↔
      (i, j) ∈ [(1, 0), (2, 1), (2, 0), (3, 1), (3, 2)]) ∧
    (∀ i j, dependsOn (stitchGraph [] PCol.source).1 i j = true → j < i) ∧
    (∀ i, ¬ Relation.TransGen
      (fun a b => dependsOn (stitchGraph [] PCol.source).1 a b = true) i i) ∧
    (∀ n ∈ (stitchGraph [] PCol.source).1, n.scope = "ping") := by
  refine ⟨stitchGraph_nodes, by decide, ?_, dependsOn_lt, ?_, ?_⟩
  · intro i j
    rw [stitchGraph_nodes]
    rcases i with _ | _ | _ | _ | i
    · simp [dependsOn, producer]
    · simp [dependsOn, producer]
      omega
    · simp [dependsOn, producer]
      omega
    · simp [dependsOn, producer]
      omega
    · simp [dependsOn]
  · intro i h
    exact absurd (transGen_dependsOn_lt i i h) (lt_irrefl i)
  · rw [stitchGraph_nodes]
    decide

theorem stitch_graph_is_dag_witness :
    dependsOn (stitchGraph [] PCol.source).1 3 2 = true ∧ 2 < 3 :=
  ⟨by decide, stitch_graph_is_dag.2.2.2.1 3 2 (by decide)⟩

/-- C12, as stated, fails: the word "é" has one character but two bytes; against the sample
`["ab"]` (average 2, in characters and in bytes) one character is below the average, yet
`multiFn` compares the two bytes of the word with 2 and calls the big emitter. -/
theorem multiFn_counts_bytes_not_chars :
    ["ab"] ≠ [] ∧
    charLen "é" = 1 ∧ goLen "é" = 2 ∧
    charLen "é" < (["ab"].map charLen).sum / ["ab"].length ∧
    multiFn "é" ["ab"] = { calls := [Emit.big "é"], err := none } ∧
    ¬ ((multiFn "é" ["ab"]).calls = [Emit.small "é"] ↔
      charLen "é" < (["ab"].map charLen).sum / ["ab"].length) := by
  decide

/-- C12, amended: `multiFn` measures length in bytes.  For every word and every non-empty
sample of arbitrary strings whose summed number of bytes is below `2 ^ 63` (so that the
64-bit `size` does not wrap), the word goes to small exactly when its number of bytes is
strictly below the summed number of bytes of the sample divided (truncating) by the number
of sample elements; when the word and all sample strings consist of single-byte characters
only, this is the same comparison on numbers of characters. -/
theorem multiFn_small_iff_fewer_bytes (word : String) (sample : List String)
    (h : sample ≠ []) (hs : (sample.map goLen).sum < 2 ^ 63) :
    ((multiFn word sample).calls = [Emit.small word] ↔
      goLen word < (sample.map goLen).sum / sample.length) ∧
    ((∀ s ∈ word :: sample, asciiOnly s = true) →
      ((multiFn word sample).calls = [Emit.small word] ↔
        charLen word < (sample.map charLen).sum / sample.length)) := by
  have key := multiFn_of_ne_nil word sample h
  rw [threshold_of_lt sample hs] at key
  simp only [avgLen, totalLen] at key
  have bytes : (multiFn word sample).calls = [Emit.small word] ↔
      goLen word < (sample.map goLen).sum / sample.length := by
    by_cases hlt : goLen word < (sample.map goLen).sum / sample.length
    · rw [if_pos hlt] at key
      simp [key, hlt]
    · rw [if_neg hlt] at key
      simp [key, hlt]
  refine ⟨bytes, ?_⟩
  intro hascii
  have hw : goLen word = charLen word :=
    goLen_eq_charLen_of_ascii word (hascii word (List.mem_cons_self word sample))
  have hm : sample.map goLen = sample.map charLen :=
    map_goLen_eq_map_charLen sample (fun s hs => hascii s (List.mem_cons_of_mem word hs))
  rw [← hw, ← hm]
  exact bytes

theorem multiFn_small_iff_fewer_bytes_witness :
    (["a", "bb", "ccc"] ≠ [] ∧ (["a", "bb", "ccc"].map goLen).sum < 2 ^ 63) ∧
    (∀ s ∈ "a" :: ["a", "bb", "ccc"], asciiOnly s = true) ∧
    ((multiFn "a" ["a", "bb", "ccc"]).calls = [Emit.small "a"] ↔
      goLen "a" < (["a", "bb", "ccc"].map goLen).sum / ["a", "bb", "ccc"].length) ∧
    ((multiFn "a" ["a", "bb", "ccc"]).calls = [Emit.small "a"] ↔
      charLen "a" < (["a", "bb", "ccc"].map charLen).sum / ["a", "bb", "ccc"].length) :=
  ⟨⟨by decide, by decide⟩, by decide,
    (multiFn_small_iff_fewer_bytes "a" ["a", "bb", "ccc"] (by decide) (by decide)).1,
    (multiFn_small_iff_fewer_bytes "a" ["a", "bb", "ccc"] (by decide) (by decide)).2
      (by decide)⟩

/-- C13, as stated, fails when the summed length of `W` does not fit a 64-bit `int`: for
`W` the empty word followed by `2 ^ 31` references to a string of `2 ^ 32` bytes, the empty
word is strictly shorter than the truncated average of `W`, yet `size` wraps to a negative
value, `small1` is empty and the third node returns "Empty sample". -/
theorem stitch_overflow_error_despite_short_word :
    (∃ w ∈ "" :: wrapSample,
      goLen w < (("" :: wrapSample).map goLen).sum / ("" :: wrapSample).length) ∧
    (stitchNodes ("" :: wrapSample)).nodeA.small = [] ∧
    (stitchNodes ("" :: wrapSample)).nodeC.err = some "Empty sample" ∧
    ¬ ((stitchNodes ("" :: wrapSample)).nodeC.err = some "Empty sample" ↔
      ("" :: wrapSample ≠ [] ∧
        ∀ w ∈ "" :: wrapSample,
          ¬ goLen w < (("" :: wrapSample).map goLen).sum / ("" :: wrapSample).length)) :=
  nodeC_of_overflow wrapSample length_wrapSample totalLen_wrapSample

set_option maxRecDepth 8192 in
/-- C13, amended: with each node run as one `multiFn` call per main-input element, for
every word list `W` the first, second and fourth node of `stitch` never raise an error and
never get an empty sample together with a non-empty main input, and the third node raises
nothing but "Empty sample", and only with the empty sample `small1` and the non-empty main
input `big2` (examples: `["a", "bb"]` and the equal-length list `["ab", "cd"]`).  For every
`W` whose summed length is below `2 ^ 63`, the third node raises "Empty sample" exactly when
`W` is non-empty and no word of `W` is strictly shorter than the truncated average length of
`W`; so some node of the pipeline raises an error exactly in that case. -/
theorem stitch_error_iff_no_short_word (W : List String) :
    (((stitchNodes W).nodeA.err = none ∧ (stitchNodes W).nodeB.err = none ∧
        (stitchNodes W).nodeD.err = none) ∧
      ((stitchNodes W).nodeC.err = none ∨ (stitchNodes W).nodeC.err = some "Empty sample") ∧
      ¬ (W ≠ [] ∧ W = []) ∧
      ¬ (W ≠ [] ∧ (stitchNodes W).nodeA.big = []) ∧
      ¬ ((stitchNodes W).nodeB.small ≠ [] ∧ (stitchNodes W).nodeC.big = []) ∧
      ((stitchNodes W).nodeC.err = none ∨
        ((stitchNodes W).nodeA.small = [] ∧ (stitchNodes W).nodeB.big ≠ [])) ∧
      (stitchNodes ["a", "bb"]).nodeC.err = some "Empty sample" ∧
      (stitchNodes ["ab", "cd"]).nodeC.err = some "Empty sample") ∧
    ((W.map goLen).sum < 2 ^ 63 →
      (((stitchNodes W).nodeC.err = some "Empty sample" ↔
          (W ≠ [] ∧ ∀ w ∈ W, ¬ goLen w < (W.map goLen).sum / W.length)) ∧
        (((stitchNodes W).nodeA.err ≠ none ∨ (stitchNodes W).nodeB.err ≠ none ∨
            (stitchNodes W).nodeC.err ≠ none ∨ (stitchNodes W).nodeD.err ≠ none) ↔
          (W ≠ [] ∧ ∀ w ∈ W, ¬ goLen w < (W.map goLen).sum / W.length)))) := by
  have hA := nodeA_eq W
  have hB := nodeB_eq W
  have hD := nodeD_eq W
  have hC : ((stitchNodes W).nodeC.err = some "Empty sample" ↔ (W ≠ [] ∧ shorter W W = [])) ∧
      ((stitchNodes W).nodeC.err = none ∨ (stitchNodes W).nodeC.err = some "Empty sample") ∧
      ((stitchNodes W).nodeC.err ≠ none ↔ (W ≠ [] ∧ shorter W W = [])) ∧
      ((stitchNodes W).nodeC.err = none ∨
        ((stitchNodes W).nodeA.small = [] ∧ (stitchNodes W).nodeB.big ≠ [])) ∧
      ¬ ((stitchNodes W).nodeB.small ≠ [] ∧ (stitchNodes W).nodeC.big = []) := by
    by_cases h : shorter W W = []
    · by_cases hne : W = []
      · subst hne
        rw [nodeC_nil]
        simp
        decide
      · rw [nodeC_fail W hne h, hA, hB]
        have hb := big2_ne_nil W hne
        have hs := small2_nil_of_small1_nil W h
        simp [hne, h, hb, hs]
    · have hne : W ≠ [] := by
        intro h0
        subst h0
        exact h rfl
      rw [nodeC_ok W h]
      have hb := big2_ne_nil W hne
      simp [h, hb]
  refine ⟨⟨⟨by rw [hA], by rw [hB], by rw [hD]⟩, hC.2.1, ?_, ?_, hC.2.2.2.2, hC.2.2.2.1,
    by decide, by decide⟩, ?_⟩
  · rintro ⟨hne, he⟩
    exact hne he
  · rintro ⟨hne, he⟩
    rw [hA] at he
    exact longer_self_ne_nil W hne he
  · intro hs
    have hcond : (W ≠ [] ∧ ∀ w ∈ W, ¬ goLen w < (W.map goLen).sum / W.length) ↔
        (W ≠ [] ∧ shorter W W = []) := by
      rw [shorter_eq_nil_iff, threshold_of_lt W hs]
      constructor
      · rintro ⟨hne, hall⟩
        refine ⟨hne, fun w hw => ?_⟩
        have := hall w hw
        simp only [avgLen, totalLen]
        omega
      · rintro ⟨hne, hall⟩
        refine ⟨hne, fun w hw => ?_⟩
        have := hall w hw
        simp only [avgLen, totalLen] at this
        omega
    refine ⟨?_, ?_⟩
    · rw [hcond]
      exact hC.1
    · rw [hcond, ← hC.2.2.1, hA, hB, hD]
      simp

theorem stitch_error_iff_no_short_word_witness :
    (["a", "bb"].map goLen).sum < 2 ^ 63 ∧
    (((stitchNodes ["a", "bb"]).nodeC.err = some "Empty sample" ↔
        (["a", "bb"] ≠ [] ∧
          ∀ w ∈ ["a", "bb"], ¬ goLen w < (["a", "bb"].map goLen).sum / ["a", "bb"].length)) ∧
      (((stitchNodes ["a", "bb"]).nodeA.err ≠ none ∨ (stitchNodes ["a", "bb"]).nodeB.err ≠ none ∨
          (stitchNodes ["a", "bb"]).nodeC.err ≠ none ∨
          (stitchNodes ["a", "bb"]).nodeD.err ≠ none) ↔
        (["a", "bb"] ≠ [] ∧
          ∀ w ∈ ["a", "bb"],
            ¬ goLen w < (["a", "bb"].map goLen).sum / ["a", "bb"].length))) :=
  ⟨by decide, (stitch_error_iff_no_short_word ["a", "bb"]).2 (by decide)⟩

/-- C14: for every word list `W` on which none of the four nodes of `stitch` raises an
error, the two results `(small4, big3)` of `stitch` split `W` by one length threshold: the
first is the list of the words of `W` below the threshold, the second the list of the words
of `W` not below it, each in the order of `W`; so each is a sublist of `W`, together they are
a rearrangement of `W`, and every word occurs in the two results together exactly as often
as in `W`. -/
theorem stitch_outputs_partition (W : List String)
    (_hA : (stitchNodes W).nodeA.err = none) (_hB : (stitchNodes W).nodeB.err = none)
    (hC : (stitchNodes W).nodeC.err = none) (_hD : (stitchNodes W).nodeD.err = none) :
    (∃ t : Nat, (stitch W).1 = W.filter (fun w => decide (goLen w < t)) ∧
      (stitch W).2 = W.filter (fun w => !decide (goLen w < t))) ∧
    ((stitch W).1).Sublist W ∧ ((stitch W).2).Sublist W ∧
    ((stitch W).1 ++ (stitch W).2).Perm W ∧
    (∀ w, (stitch W).1.count w + (stitch W).2.count w = W.count w) ∧
    (∀ w, w ∈ W ↔ (w ∈ (stitch W).1 ∨ w ∈ (stitch W).2)) := by
  have h1 := stitch_fst_eq W
  have h2 := stitch_snd_eq_of_ok W hC
  have hperm : ((stitch W).1 ++ (stitch W).2).Perm W := by
    rw [h1, h2]
    exact shorter_append_longer_perm (longer W W) W
  refine ⟨⟨threshold (longer W W), ?_, ?_⟩, ?_, ?_, hperm, ?_, ?_⟩
  · rw [h1]
    rfl
  · rw [h2]
    exact longer_eq_filter_not (longer W W) W
  · rw [h1]
    exact List.filter_sublist W
  · rw [h2]
    exact List.filter_sublist W
  · intro w
    rw [← List.count_append]
    exact hperm.count_eq w
  · intro w
    rw [← List.mem_append]
    exact (hperm.mem_iff).symm

set_option maxRecDepth 8192 in
theorem stitch_outputs_partition_witness :
    ((stitchNodes ["a", "bb", "ccc"]).nodeA.err = none ∧
      (stitchNodes ["a", "bb", "ccc"]).nodeB.err = none ∧
      (stitchNodes ["a", "bb", "ccc"]).nodeC.err = none ∧
      (stitchNodes ["a", "bb", "ccc"]).nodeD.err = none) ∧
    stitch ["a", "bb", "ccc"] = (["a"], ["bb", "ccc"]) ∧
    ((∃ t : Nat, (stitch ["a", "bb", "ccc"]).1 =
        ["a", "bb", "ccc"].filter (fun w => decide (goLen w < t)) ∧
      (stitch ["a", "bb", "ccc"]).2 =
        ["a", "bb", "ccc"].filter (fun w => !decide (goLen w < t))) ∧
    ((stitch ["a", "bb", "ccc"]).1).Sublist ["a", "bb", "ccc"] ∧
    ((stitch ["a", "bb", "ccc"]).2).Sublist ["a", "bb", "ccc"] ∧
    ((stitch ["a", "bb", "ccc"]).1 ++ (stitch ["a", "bb", "ccc"]).2).Perm ["a", "bb", "ccc"] ∧
    (∀ w, (stitch ["a", "bb", "ccc"]).1.count w + (stitch ["a", "bb", "ccc"]).2.count w =
      ["a", "bb", "ccc"].count w) ∧
    (∀ w, w ∈ ["a", "bb", "ccc"] ↔
      (w ∈ (stitch ["a", "bb", "ccc"]).1 ∨ w ∈ (stitch ["a", "bb", "ccc"]).2))) :=
  ⟨⟨by decide, by decide, by decide, by decide⟩, by decide,
    stitch_outputs_partition ["a", "bb", "ccc"] (by decide) (by decide) (by decide)
      (by decide)⟩

end PingPong
